import Mathlib

/-!
Verification development for the `goes-data-timeseries` notebook
(repository `cgentemann/ocean-heart`).

The notebook's numeric core is shallowly embedded here:

* `calculate_points`   — the Neighbor Offset Generator (notebook cell 1);
* `forward_fill_2d`    — the Gap Filler (per-column `np.interp` over the
  indices of NaN cells), with NaN cells modelled as `none : Option ℚ`;
* `find_nearest_indices` / `two_pass` — the Nearest-Point Locator and the
  notebook's two-pass refinement (cell 8);
* `pythonIndex` / `frameAt` / `extract_points` — the point-extraction loop
  over `ds.isel(y=..., x=...)` (cell 15), with Python/NumPy positional
  index semantics (negative indices count from the end, out-of-range
  indices raise, modelled as `none`);
* `calculate_degrees`  — the Projection Inverter over `ℝ`, with the
  NaN produced by `np.sqrt` of a negative discriminant modelled as
  `none : Option ℝ`.

Grids for the Gap Filler are stored column-major (a list of columns),
matching the source's per-column loop `for i in range(arr.shape[1])`.
-/

/-- One entry of the notebook's `points` list: a dict
`{"i": ..., "j": ..., "name": ...}` with `i` the x (longitude) index and
`j` the y (latitude) index. -/
structure PointEntry where
  i : ℤ
  j : ℤ
  name : String
  deriving DecidableEq

/-- The Neighbor Offset Generator (`calculate_points(istep)`).  The source
reads the module-level `lat_idx` / `lon_idx`; they are explicit arguments
here.  The source's body immediately rebinds `istep = 1`, shadowing the
argument, which the `let` below reproduces. -/
def calculate_points (lat_idx lon_idx : ℤ) (istep : ℤ) : List PointEntry :=
  let istep : ℤ := 1
  [ ⟨lon_idx + istep, lat_idx + istep, "NE"⟩,
    ⟨lon_idx + istep, lat_idx, "East"⟩,
    ⟨lon_idx + istep, lat_idx - istep, "SW"⟩,
    ⟨lon_idx, lat_idx + istep, "N"⟩,
    ⟨lon_idx, lat_idx - istep, "S"⟩,
    ⟨lon_idx - istep, lat_idx + istep, "NW"⟩,
    ⟨lon_idx - istep, lat_idx, "W"⟩,
    ⟨lon_idx - istep, lat_idx - istep, "SW"⟩ ]

/-- Python / NumPy / xarray positional index semantics for one axis of
length `n`: `0 ≤ idx < n` selects `idx`; `-n ≤ idx < 0` selects `n + idx`
(counting from the end); anything else raises `IndexError`, modelled as
`none`. -/
def pythonIndex (n : ℕ) (idx : ℤ) : Option ℕ :=
  if 0 ≤ idx ∧ idx < (n : ℤ) then some idx.toNat
  else if -(n : ℤ) ≤ idx ∧ idx < 0 then some ((n : ℤ) + idx).toNat
  else none

/-- Effect-free rendering of mapping a fallible operation over a list:
the first failure aborts the whole computation (a raised exception). -/
def traverseOpt {α β : Type} (f : α → Option β) : List α → Option (List β)
  | [] => some []
  | a :: t => (f a).bind fun b => (traverseOpt f t).map fun t' => b :: t'

/-- One frame (`y` rows of `x` cells) indexed at `ds.isel(y=jj, x=ii)`;
cells are `Option ℚ` so that missing samples (`none`) propagate. -/
def frameAt (fr : List (List (Option ℚ))) (jj ii : ℤ) : Option (Option ℚ) :=
  (pythonIndex fr.length jj).bind fun jn =>
    (fr[jn]?).bind fun row =>
      (pythonIndex row.length ii).bind fun iN => row[iN]?

/-- Time series of one point: `ds.isel(y=jj, x=ii)` applied across all
timestamps of a time-extended Data Field (time-major list of frames). -/
def extract_point (field : List (List (List (Option ℚ)))) (jj ii : ℤ) :
    Option (List (Option ℚ)) :=
  traverseOpt (fun fr => frameAt fr jj ii) field

/-- The point-extraction loop of cell 15: one time series per entry of
`points`, concatenated in order along `points_index`. -/
def extract_points (field : List (List (List (Option ℚ))))
    (pts : List PointEntry) : Option (List (List (Option ℚ))) :=
  traverseOpt (fun p => extract_point field p.j p.i) pts

/-- The defined (non-NaN) samples of one column, as `np.interp` receives
them: pairs of (`np.flatnonzero(~mask)` index, value), indices starting
at `j`. -/
def definedPts : ℕ → List (Option ℚ) → List (ℚ × ℚ)
  | _, [] => []
  | j, none :: rest => definedPts (j + 1) rest
  | j, some v :: rest => ((j : ℚ), v) :: definedPts (j + 1) rest

/-- `np.interp x xp fp` for the sample points `pts = zip xp fp` (with
`xp` strictly increasing): clamp to the first value left of the range,
to the last value right of it, and interpolate linearly on each segment.
The `[]` case is unreachable (the caller raises first). -/
def interpPts (x : ℚ) : List (ℚ × ℚ) → ℚ
  | [] => 0
  | [p] => p.2
  | p :: q :: rest =>
    if x ≤ p.1 then p.2
    else if x ≤ q.1 then p.2 + (q.2 - p.2) * (x - p.1) / (q.1 - p.1)
    else interpPts x (q :: rest)

/-- The per-column assignment `arr[mask, i] = np.interp(...)`: defined
cells are kept, NaN cells are replaced by the interpolated value at their
own index. -/
def fillCells (pts : List (ℚ × ℚ)) : ℕ → List (Option ℚ) → List (Option ℚ)
  | _, [] => []
  | j, none :: rest => some (interpPts (j : ℚ) pts) :: fillCells pts (j + 1) rest
  | j, some v :: rest => some v :: fillCells pts (j + 1) rest

/-- One iteration of the Gap Filler's column loop.  When the column has no
defined sample, `np.interp` is called with an empty `xp` and raises
`ValueError` (modelled as `none`). -/
def fillColumn (col : List (Option ℚ)) : Option (List (Option ℚ)) :=
  if definedPts 0 col = [] then none
  else some (fillCells (definedPts 0 col) 0 col)

/-- The Gap Filler `forward_fill_2d(arr)`.  The grid is stored column-major
(a list of columns).  The source loops over the columns assigning into
`arr` and then returns `arr` itself, so this value is at once the return
value and the post-call state of the argument array. -/
def forward_fill_2d (g : List (List (Option ℚ))) :
    Option (List (List (Option ℚ))) :=
  traverseOpt fillColumn g

/-- First index of the minimum of a list, scanning left to right with a
strict comparison — `np.argmin` (ties go to the lowest index). -/
def argminIdx : List ℚ → ℕ
  | [] => 0
  | [_] => 0
  | a :: b :: t =>
    if a ≤ (b :: t).getD (argminIdx (b :: t)) 0 then 0
    else argminIdx (b :: t) + 1

/-- `find_nearest_indices(lat_arr, lon_arr, target_lat, target_lon)`:
`np.argmin` of the absolute differences on each axis independently.
`np.argmin` of an empty array raises, modelled as `none`. -/
def find_nearest_indices (lat_arr lon_arr : List ℚ)
    (target_lat target_lon : ℚ) : Option (ℕ × ℕ) :=
  if lat_arr = [] ∨ lon_arr = [] then none
  else some (argminIdx (lat_arr.map fun v => |v - target_lat|),
             argminIdx (lon_arr.map fun v => |v - target_lon|))

/-- Column `c` of a row-major 2D grid: `arr[:, c]`. -/
def colSlice (g : List (List ℚ)) (c : ℕ) : List ℚ :=
  g.map fun row => row.getD c 0

/-- Row `r` of a row-major 2D grid: `arr[r, :]`. -/
def rowSlice (g : List (List ℚ)) (r : ℕ) : List ℚ :=
  g.getD r []

/-- The two-pass refinement of cell 8: a first `find_nearest_indices` on
the edge column/row, then a second on the column/row through the first
guess.  Returns (first-pass index, second-pass index). -/
def two_pass (lat lon : List (List ℚ)) (target_lat target_lon : ℚ) :
    Option ((ℕ × ℕ) × (ℕ × ℕ)) :=
  (find_nearest_indices (colSlice lat 0) (rowSlice lon 0)
      target_lat target_lon).bind fun p1 =>
    (find_nearest_indices (colSlice lat p1.2) (rowSlice lon p1.1)
        target_lat target_lon).map fun p2 => (p1, p2)

/-- Cell `(i, j)` of a row-major 2D grid, `none` when out of range. -/
def cellAt2 {α : Type} (g : List (List α)) (i j : ℕ) : Option α :=
  (g[i]?).bind fun row => row[j]?

/-- The `goes_imager_projection` attribute bundle read by
`calculate_degrees`. -/
structure ProjectionInfo where
  longitude_of_projection_origin : ℝ
  perspective_point_height : ℝ
  semi_major_axis : ℝ
  semi_minor_axis : ℝ

/-- `H = perspective_point_height + semi_major_axis`. -/
def Hparam (p : ProjectionInfo) : ℝ :=
  p.perspective_point_height + p.semi_major_axis

/-- `lambda_0 = lon_origin * pi / 180`. -/
noncomputable def lambda_0 (p : ProjectionInfo) : ℝ :=
  p.longitude_of_projection_origin * Real.pi / 180

/-- `a_var` of the projection inversion at one scan-angle pair. -/
noncomputable def a_var (p : ProjectionInfo) (x y : ℝ) : ℝ :=
  Real.sin x ^ 2 +
    Real.cos x ^ 2 *
      (Real.cos y ^ 2 +
        p.semi_major_axis * p.semi_major_axis /
            (p.semi_minor_axis * p.semi_minor_axis) * Real.sin y ^ 2)

/-- `b_var = -2 H cos x cos y`. -/
noncomputable def b_var (p : ProjectionInfo) (x y : ℝ) : ℝ :=
  -2 * Hparam p * Real.cos x * Real.cos y

/-- `c_var = H^2 - r_eq^2`. -/
def c_var (p : ProjectionInfo) : ℝ :=
  Hparam p ^ 2 - p.semi_major_axis ^ 2

/-- The quadratic discriminant under `np.sqrt` in `r_s`. -/
noncomputable def discriminant (p : ProjectionInfo) (x y : ℝ) : ℝ :=
  b_var p x y ^ 2 - 4 * a_var p x y * c_var p

/-- Real division with an undefined (`none`) result for a zero
denominator, standing in for the NaN/Inf a float division would give. -/
noncomputable def divOpt (a b : ℝ) : Option ℝ :=
  if b = 0 then none else some (a / b)

open Classical in
/-- Slant range `r_s`: NaN (`none`) when `np.sqrt` sees a negative
discriminant — the scan ray misses the Earth ellipsoid. -/
noncomputable def r_s_opt (p : ProjectionInfo) (x y : ℝ) : Option ℝ :=
  if discriminant p x y < 0 then none
  else divOpt (-b_var p x y - Real.sqrt (discriminant p x y))
    (2 * a_var p x y)

/-- `abi_lat` at one scan-angle pair, from `r_s` through
`(s_x, s_y, s_z)` and the closed-form arctangent. -/
noncomputable def latCell (p : ProjectionInfo) (x y : ℝ) : Option ℝ :=
  (r_s_opt p x y).bind fun r =>
    (divOpt (r * Real.cos x * Real.sin y)
        (Real.sqrt ((Hparam p - r * Real.cos x * Real.cos y) ^ 2 +
          (-(r * Real.sin x)) ^ 2))).map fun q =>
      180 / Real.pi *
        Real.arctan (p.semi_major_axis * p.semi_major_axis /
          (p.semi_minor_axis * p.semi_minor_axis) * q)

/-- `abi_lon` at one scan-angle pair. -/
noncomputable def lonCell (p : ProjectionInfo) (x y : ℝ) : Option ℝ :=
  (r_s_opt p x y).bind fun r =>
    (divOpt (-(r * Real.sin x))
        (Hparam p - r * Real.cos x * Real.cos y)).map fun q =>
      (lambda_0 p - Real.arctan q) * (180 / Real.pi)

/-- The Projection Inverter `calculate_degrees`: `np.meshgrid` makes row
`i` carry `y = ys[i]` with `x` varying along the row; each cell of the
latitude and longitude grids is computed pointwise. -/
noncomputable def calculate_degrees (p : ProjectionInfo) (xs ys : List ℝ) :
    List (List (Option ℝ)) × List (List (Option ℝ)) :=
  (ys.map fun y => xs.map fun x => latCell p x y,
   ys.map fun y => xs.map fun x => lonCell p x y)

/-! ## Generic facts about `traverseOpt` -/

theorem traverseOpt_length {α β : Type} (f : α → Option β) :
    ∀ l l', traverseOpt f l = some l' → l'.length = l.length := by
  intro l
  induction l with
  | nil => intro l' h; simp [traverseOpt] at h; simp [h.symm]
  | cons a t ih =>
    intro l' h
    simp only [traverseOpt, Option.bind_eq_some, Option.map_eq_some'] at h
    obtain ⟨b, _, t', ht, rfl⟩ := h
    simp [ih t' ht]

theorem traverseOpt_get {α β : Type} (f : α → Option β) :
    ∀ l l', traverseOpt f l = some l' →
      ∀ (k : ℕ) (a : α), l[k]? = some a → ∃ b, f a = some b ∧ l'[k]? = some b := by
  intro l
  induction l with
  | nil => intro l' _ k a ha; simp at ha
  | cons x t ih =>
    intro l' h k a ha
    simp only [traverseOpt, Option.bind_eq_some, Option.map_eq_some'] at h
    obtain ⟨b, hb, t', ht, rfl⟩ := h
    cases k with
    | zero => simp at ha; subst ha; exact ⟨b, hb, by simp⟩
    | succ k => simp at ha ⊢; exact ih t' ht k a ha

theorem traverseOpt_isSome {α β : Type} (f : α → Option β) :
    ∀ l, (∀ a ∈ l, (f a).isSome) → (traverseOpt f l).isSome := by
  intro l
  induction l with
  | nil => intro _; simp [traverseOpt]
  | cons a t ih =>
    intro h
    have ha := h a (by simp)
    have ht := ih fun x hx => h x (by simp [hx])
    cases hfa : f a with
    | none => rw [hfa] at ha; simp at ha
    | some b =>
      cases hft : traverseOpt f t with
      | none => rw [hft] at ht; simp at ht
      | some t' => simp [traverseOpt, hfa, hft]

theorem traverseOpt_id {α : Type} (f : α → Option α) :
    ∀ l, (∀ a ∈ l, f a = some a) → traverseOpt f l = some l := by
  intro l
  induction l with
  | nil => intro _; simp [traverseOpt]
  | cons a t ih =>
    intro h
    simp [traverseOpt, h a (by simp), ih fun x hx => h x (by simp [hx])]

/-! ## C1 — Neighbor Offset Generator: 8 entries, compass names -/

/-- C1 counterexample: already at step 1 and center (0,0), the compass
names returned by `calculate_points` are not pairwise distinct ("SW"
occurs twice, once where "SE" would belong). -/
theorem calculate_points_names_not_distinct :
    ¬ ((calculate_points 0 0 1).map PointEntry.name).Nodup := by decide

/-- C1 (amended): for every center and every step ≥ 1,
`calculate_points` returns exactly 8 entries, whose compass names are, in
order, NE, East, SW, N, S, NW, W, SW — only 7 distinct names, with "SW"
duplicated (the south-east diagonal is mislabeled "SW"). -/
theorem calculate_points_names_amended (lat_idx lon_idx istep : ℤ)
    (h : 1 ≤ istep) :
    (calculate_points lat_idx lon_idx istep).length = 8 ∧
    (calculate_points lat_idx lon_idx istep).map PointEntry.name =
      ["NE", "East", "SW", "N", "S", "NW", "W", "SW"] ∧
    ((calculate_points lat_idx lon_idx istep).map PointEntry.name).dedup.length = 7 ∧
    ((calculate_points lat_idx lon_idx istep).map PointEntry.name).count "SW" = 2 := by
  refine ⟨rfl, rfl, ?_, ?_⟩
  · show (["NE", "East", "SW", "N", "S", "NW", "W", "SW"] : List String).dedup.length = 7
    decide
  · show (["NE", "East", "SW", "N", "S", "NW", "W", "SW"] : List String).count "SW" = 2
    decide

/-- Witness for `calculate_points_names_amended` at a concrete center and
step. -/
theorem calculate_points_names_amended_witness :
    (1 : ℤ) ≤ 3 ∧
    (calculate_points 10 20 3).length = 8 ∧
    ((calculate_points 10 20 3).map PointEntry.name).count "SW" = 2 :=
  ⟨by decide, (calculate_points_names_amended 10 20 3 (by decide)).1,
    (calculate_points_names_amended 10 20 3 (by decide)).2.2.2⟩

/-! ## C2 — the step-size argument is ignored -/

/-- C2 (code bug): the body of `calculate_points` rebinds `istep = 1`, so
the result never depends on the step-size argument; at `istep = 2` every
offset still differs from the center by at most 1 in each coordinate. -/
theorem calculate_points_step_ignored :
    (∀ lat_idx lon_idx s s' : ℤ,
        calculate_points lat_idx lon_idx s = calculate_points lat_idx lon_idx s') ∧
    (calculate_points 0 0 2).map (fun p => (p.i, p.j)) =
      [(1, 1), (1, 0), (1, -1), (0, 1), (0, -1), (-1, 1), (-1, 0), (-1, -1)] :=
  ⟨fun _ _ _ _ => rfl, by decide⟩

/-! ## C3 — the Gap Filler mutates its argument -/

/-- C3 counterexample: `forward_fill_2d` assigns into `arr` and returns
`arr` itself, so after the call the argument holds the filled grid — for
a one-column grid with a NaN in the middle the post-call state differs
from the input (the claim would require it unchanged). -/
theorem forward_fill_2d_mutates :
    forward_fill_2d [[some 1, none, some 3]] = some [[some 1, some 2, some 3]] ∧
    forward_fill_2d [[some 1, none, some 3]] ≠ some [[some 1, none, some 3]] := by
  constructor <;>
    norm_num [forward_fill_2d, traverseOpt, fillColumn, definedPts, fillCells,
      interpPts, List.cons_ne_nil] <;> simp

theorem fillCells_length (pts : List (ℚ × ℚ)) :
    ∀ (j : ℕ) (col : List (Option ℚ)), (fillCells pts j col).length = col.length := by
  intro j col
  induction col generalizing j with
  | nil => rfl
  | cons c rest ih => cases c <;> simp [fillCells, ih]

theorem fillColumn_length (col col' : List (Option ℚ))
    (h : fillColumn col = some col') : col'.length = col.length := by
  unfold fillColumn at h
  by_cases hp : definedPts 0 col = []
  · rw [if_pos hp] at h; exact absurd h (by simp)
  · rw [if_neg hp] at h
    have := Option.some.inj h
    rw [← this, fillCells_length]

/-- C3 (amended): `forward_fill_2d` fills the array in place and returns
the same — now modified — array; when no column is entirely undefined the
result (equally, the post-call state of the argument) is a grid of the
same shape as the input: same column count, each column of the same
length. -/
theorem forward_fill_2d_shape (g g' : List (List (Option ℚ)))
    (h : forward_fill_2d g = some g') :
    g'.length = g.length ∧
    ∀ (k : ℕ) (col : List (Option ℚ)), g[k]? = some col →
      ∃ col', g'[k]? = some col' ∧ col'.length = col.length := by
  refine ⟨traverseOpt_length _ _ _ h, ?_⟩
  intro k col hk
  obtain ⟨col', hc, hk'⟩ := traverseOpt_get _ _ _ h k col hk
  exact ⟨col', hk', fillColumn_length _ _ hc⟩

/-- Witness for `forward_fill_2d_shape` on a concrete one-column grid. -/
theorem forward_fill_2d_shape_witness :
    forward_fill_2d [[some 1, none, some 3]] = some [[some 1, some 2, some 3]] ∧
    ([[some 1, some 2, some 3]] : List (List (Option ℚ))).length =
      [[some 1, none, some 3]].length := by
  have h : forward_fill_2d [[some 1, none, some 3]] =
      some [[some 1, some 2, some 3]] := by
    norm_num [forward_fill_2d, traverseOpt, fillColumn, definedPts, fillCells,
      interpPts, List.cons_ne_nil]
  exact ⟨h, (forward_fill_2d_shape _ _ h).1⟩

/-! ## C4 — out-of-bounds neighbor indices -/

/-- C4 counterexample: at a center on the grid edge (index (0,0), step 1)
the generator emits the index −1 three times (S, SW and the mislabeled
SW); Python indexing does not report it — on a 5-row axis it silently
selects row 4, the opposite edge, and the extraction gathers that row's
value. -/
theorem out_of_bounds_neighbor_wraps :
    ((calculate_points 0 0 1).map PointEntry.j).count (-1) = 3 ∧
    pythonIndex 5 (-1) = some 4 ∧
    frameAt [[some 0], [some 10], [some 20], [some 30], [some 40]] (-1) 0 =
      some (some 40) := by
  refine ⟨by decide, by decide, by decide⟩

/-- C4 (amended): an index at or beyond the axis length, or below
`-length`, raises `IndexError` (is detected and reported); but an index
in `[-length, -1]` — e.g. a neighbor offset past the low edge — is
silently wrapped to the opposite edge (`length + idx`), Python-style,
rather than reported. -/
theorem pythonIndex_amended (n : ℕ) (idx : ℤ) :
    (((n : ℤ) ≤ idx ∨ idx < -(n : ℤ)) → pythonIndex n idx = none) ∧
    ((-(n : ℤ) ≤ idx ∧ idx < 0) →
      pythonIndex n idx = some ((n : ℤ) + idx).toNat) ∧
    ((0 ≤ idx ∧ idx < (n : ℤ)) → pythonIndex n idx = some idx.toNat) := by
  unfold pythonIndex
  refine ⟨fun h => ?_, fun h => ?_, fun h => ?_⟩
  · rw [if_neg (by omega), if_neg (by omega)]
  · rw [if_neg (by omega), if_pos h]
  · rw [if_pos h]

/-- Witness for `pythonIndex_amended` on a length-5 axis. -/
theorem pythonIndex_amended_witness :
    pythonIndex 5 7 = none ∧ pythonIndex 5 (-1) = some 4 ∧
    pythonIndex 5 2 = some 2 := by
  refine ⟨(pythonIndex_amended 5 7).1 (by omega), ?_, ?_⟩
  · have h := (pythonIndex_amended 5 (-1)).2.1 (by omega)
    simpa using h
  · have h := (pythonIndex_amended 5 2).2.2 (by omega)
    simpa using h

/-! ## Facts about `definedPts`, `interpPts` and `fillCells` -/

theorem fillColumn_eq (col out : List (Option ℚ)) (h : fillColumn col = some out) :
    definedPts 0 col ≠ [] ∧ out = fillCells (definedPts 0 col) 0 col := by
  unfold fillColumn at h
  by_cases hp : definedPts 0 col = []
  · rw [if_pos hp] at h; exact absurd h (by simp)
  · rw [if_neg hp] at h; exact ⟨hp, (Option.some.inj h).symm⟩

theorem definedPts_lb :
    ∀ (k : ℕ) (col : List (Option ℚ)), ∀ p ∈ definedPts k col, (k : ℚ) ≤ p.1 := by
  intro k col
  induction col generalizing k with
  | nil => intro p hp; simp [definedPts] at hp
  | cons c rest ih =>
    intro p hp
    cases c with
    | none =>
      have h := ih (k + 1) p (by simpa [definedPts] using hp)
      push_cast at h ⊢; linarith
    | some v =>
      simp only [definedPts, List.mem_cons] at hp
      rcases hp with h | h
      · rw [h]
      · have h' := ih (k + 1) p h
        push_cast at h' ⊢; linarith

theorem definedPts_sorted :
    ∀ (k : ℕ) (col : List (Option ℚ)),
      (definedPts k col).Pairwise (fun p q => p.1 < q.1) := by
  intro k col
  induction col generalizing k with
  | nil => simp [definedPts]
  | cons c rest ih =>
    cases c with
    | none => simpa [definedPts] using ih (k + 1)
    | some v =>
      simp only [definedPts, List.pairwise_cons]
      refine ⟨?_, ih (k + 1)⟩
      intro q hq
      have h := definedPts_lb (k + 1) rest q hq
      push_cast at h ⊢; linarith

theorem interpPts_before (x x1 f1 : ℚ) (rest : List (ℚ × ℚ)) (h : x ≤ x1) :
    interpPts x ((x1, f1) :: rest) = f1 := by
  cases rest with
  | nil => rfl
  | cons q t => simp only [interpPts]; rw [if_pos h]

theorem interpPts_segment (x x1 f1 x2 f2 : ℚ) (rest : List (ℚ × ℚ))
    (h1 : x1 < x) (h2 : x ≤ x2) :
    interpPts x ((x1, f1) :: (x2, f2) :: rest) =
      f1 + (f2 - f1) * (x - x1) / (x2 - x1) := by
  simp only [interpPts]
  rw [if_neg (by linarith), if_pos h2]

theorem interpPts_skip (x : ℚ) :
    ∀ (pre : List (ℚ × ℚ)) (p : ℚ × ℚ) (rest : List (ℚ × ℚ)),
      (∀ q ∈ pre, q.1 < x) → p.1 < x →
      interpPts x (pre ++ p :: rest) = interpPts x (p :: rest) := by
  intro pre
  induction pre with
  | nil => intro p rest _ _; rfl
  | cons a pre' ih =>
    intro p rest hpre hp
    have ha : a.1 < x := hpre a (by simp)
    cases pre' with
    | nil =>
      simp only [List.nil_append, List.cons_append]
      cases p with
      | mk px pf =>
        simp only [interpPts]
        rw [if_neg (by linarith), if_neg (by simp at hp; linarith)]
    | cons b pre'' =>
      have hb : b.1 < x := hpre b (by simp)
      simp only [List.cons_append]
      simp only [interpPts]
      rw [if_neg (by linarith), if_neg (by linarith)]
      have h' := ih p rest (fun q hq => hpre q (by simp [hq])) hp
      simpa using h'

theorem interpPts_last (x x2 f2 : ℚ) (init : List (ℚ × ℚ))
    (h : ∀ q ∈ init, q.1 < x) (h2 : x2 < x) :
    interpPts x (init ++ [(x2, f2)]) = f2 := by
  rw [interpPts_skip x init (x2, f2) [] h (by simpa using h2)]
  rfl

theorem fillCells_get (pts : List (ℚ × ℚ)) :
    ∀ (k : ℕ) (col : List (Option ℚ)) (m : ℕ),
      (col[m]? = some none →
        (fillCells pts k col)[m]? =
          some (some (interpPts ((k + m : ℕ) : ℚ) pts))) ∧
      (∀ v : ℚ, col[m]? = some (some v) →
        (fillCells pts k col)[m]? = some (some v)) := by
  intro k col
  induction col generalizing k with
  | nil => intro m; constructor <;> simp
  | cons c rest ih =>
    intro m
    cases m with
    | zero =>
      constructor
      · intro h; simp at h; subst h; simp [fillCells]
      · intro v h; simp at h; subst h; simp [fillCells]
    | succ m' =>
      have h' := ih (k + 1) m'
      rw [show k + 1 + m' = k + (m' + 1) from by omega] at h'
      constructor
      · intro h
        simp only [List.getElem?_cons_succ] at h
        cases c <;> simpa [fillCells] using h'.1 h
      · intro v h
        simp only [List.getElem?_cons_succ] at h
        cases c <;> simpa [fillCells] using h'.2 v h

/-! ## C7 — what the Gap Filler computes per cell -/

/-- C7 counterexample: for the single column `[NaN, 0, 2]` the claim's
edge rule (linear extrapolation through the two nearest defined points,
giving 0 - (2-0)*(1-0)/(2-1) = -2 at index 0) does not hold: `np.interp`
clamps, and the code fills the edge cell with 0, the nearest defined
value. -/
theorem fill_edge_not_linear_extrapolation :
    forward_fill_2d [[none, some 0, some 2]] =
      some [[some 0, some 0, some 2]] ∧
    forward_fill_2d [[none, some 0, some 2]] ≠
      some [[some (-2), some 0, some 2]] := by
  constructor <;>
    norm_num [forward_fill_2d, traverseOpt, fillColumn, definedPts, fillCells,
      interpPts, List.cons_ne_nil] <;> simp

/-- C7 (amended): in a successfully gap-filled grid, each defined cell is
kept unchanged; an undefined cell strictly between two consecutive
defined cells of its column (the nearest defined values on either side)
is replaced by 1D linear interpolation between them; an undefined cell
before the first defined cell of its column gets that first defined
value, and one after the last defined cell gets that last defined value
(constant — not linear — extrapolation at the edges, as `np.interp`
clamps out-of-range queries). -/
theorem forward_fill_2d_interp (g g' : List (List (Option ℚ))) (c : ℕ)
    (col out : List (Option ℚ)) (hg : forward_fill_2d g = some g')
    (hc : g[c]? = some col) (hout : g'[c]? = some out) :
    (∀ (j : ℕ) (v : ℚ), col[j]? = some (some v) → out[j]? = some (some v)) ∧
    (∀ (j : ℕ) (x1 f1 x2 f2 : ℚ) (pre suf : List (ℚ × ℚ)),
        col[j]? = some none →
        definedPts 0 col = pre ++ (x1, f1) :: (x2, f2) :: suf →
        x1 < (j : ℚ) → (j : ℚ) < x2 →
        out[j]? = some (some (f1 + (f2 - f1) * ((j : ℚ) - x1) / (x2 - x1)))) ∧
    (∀ (j : ℕ) (x1 f1 : ℚ) (rest : List (ℚ × ℚ)),
        col[j]? = some none →
        definedPts 0 col = (x1, f1) :: rest → (j : ℚ) < x1 →
        out[j]? = some (some f1)) ∧
    (∀ (j : ℕ) (x2 f2 : ℚ) (init : List (ℚ × ℚ)),
        col[j]? = some none →
        definedPts 0 col = init ++ [(x2, f2)] → x2 < (j : ℚ) →
        out[j]? = some (some f2)) := by
  obtain ⟨b, hb, hk⟩ := traverseOpt_get _ _ _ hg c col hc
  have hbout : b = out := by rw [hk] at hout; exact Option.some.inj hout
  subst hbout
  obtain ⟨-, hfc⟩ := fillColumn_eq col b hb
  subst hfc
  refine ⟨?_, ?_, ?_, ?_⟩
  · intro j v hj
    simpa using (fillCells_get (definedPts 0 col) 0 col j).2 v hj
  · intro j x1 f1 x2 f2 pre suf hj hpts h1 h2
    have hget := (fillCells_get (definedPts 0 col) 0 col j).1 hj
    rw [hpts] at hget ⊢
    simp only [Nat.zero_add] at hget
    have hsorted := definedPts_sorted 0 col
    rw [hpts] at hsorted
    rw [List.pairwise_append] at hsorted
    have hpre : ∀ q ∈ pre, q.1 < ((j : ℕ) : ℚ) := by
      intro q hq
      have := hsorted.2.2 q hq (x1, f1) (by simp)
      simpa using lt_trans this h1
    rw [interpPts_skip ((j : ℕ) : ℚ) pre (x1, f1) ((x2, f2) :: suf) hpre
        (by simpa using h1)] at hget
    rw [interpPts_segment ((j : ℕ) : ℚ) x1 f1 x2 f2 suf (by simpa using h1)
        (le_of_lt h2)] at hget
    simpa using hget
  · intro j x1 f1 rest hj hpts h1
    have hget := (fillCells_get (definedPts 0 col) 0 col j).1 hj
    rw [hpts] at hget ⊢
    simp only [Nat.zero_add] at hget
    rw [interpPts_before ((j : ℕ) : ℚ) x1 f1 rest (le_of_lt (by simpa using h1))]
      at hget
    simpa using hget
  · intro j x2 f2 init hj hpts h2
    have hget := (fillCells_get (definedPts 0 col) 0 col j).1 hj
    rw [hpts] at hget ⊢
    simp only [Nat.zero_add] at hget
    have hsorted := definedPts_sorted 0 col
    rw [hpts, List.pairwise_append] at hsorted
    have hinit : ∀ q ∈ init, q.1 < ((j : ℕ) : ℚ) := by
      intro q hq
      have := hsorted.2.2 q hq (x2, f2) (by simp)
      simpa using lt_trans this h2
    rw [interpPts_last ((j : ℕ) : ℚ) x2 f2 init hinit (by simpa using h2)]
      at hget
    simpa using hget

/-- Witness for `forward_fill_2d_interp` on the column
`[NaN, 2, NaN, 4, NaN]`: the interior NaN becomes the interpolant 3, the
edge NaNs become the nearest defined values 2 and 4. -/
theorem forward_fill_2d_interp_witness :
    forward_fill_2d [[none, some 2, none, some 4, none]] =
      some [[some 2, some 2, some 3, some 4, some 4]] ∧
    ([some 2, some 2, some 3, some 4, some 4] : List (Option ℚ))[2]? =
      some (some 3) ∧
    ([some 2, some 2, some 3, some 4, some 4] : List (Option ℚ))[0]? =
      some (some 2) ∧
    ([some 2, some 2, some 3, some 4, some 4] : List (Option ℚ))[4]? =
      some (some 4) := by
  have hg : forward_fill_2d [[none, some 2, none, some 4, none]] =
      some [[some 2, some 2, some 3, some 4, some 4]] := by
    norm_num [forward_fill_2d, traverseOpt, fillColumn, definedPts, fillCells,
      interpPts, List.cons_ne_nil]
  have hpts : definedPts 0 [none, some 2, none, some 4, none] =
      [] ++ ((1 : ℚ), (2 : ℚ)) :: ((3 : ℚ), (4 : ℚ)) :: [] := by
    norm_num [definedPts]
  have h := forward_fill_2d_interp [[none, some 2, none, some 4, none]]
    [[some 2, some 2, some 3, some 4, some 4]] 0
    [none, some 2, none, some 4, none]
    [some 2, some 2, some 3, some 4, some 4] hg (by simp) (by simp)
  refine ⟨hg, ?_, ?_, ?_⟩
  · have h2 := h.2.1 2 1 2 3 4 [] [] (by simp) hpts (by norm_num) (by norm_num)
    simpa using h2
  · have h0 := h.2.2.1 0 1 2 [((3 : ℚ), (4 : ℚ))] (by simp)
      (by simpa using hpts) (by norm_num)
    simpa using h0
  · have h4 := h.2.2.2 4 3 4 [((1 : ℚ), (2 : ℚ))] (by simp)
      (by simpa using hpts) (by norm_num)
    simpa using h4

/-! ## C8 — idempotence of the Gap Filler -/

theorem traverseOpt_mem {α β : Type} (f : α → Option β) :
    ∀ l l', traverseOpt f l = some l' → ∀ b ∈ l', ∃ a ∈ l, f a = some b := by
  intro l
  induction l with
  | nil => intro l' h b hb; simp [traverseOpt] at h; subst h; simp at hb
  | cons a t ih =>
    intro l' h b hb
    simp only [traverseOpt, Option.bind_eq_some, Option.map_eq_some'] at h
    obtain ⟨b', hb', t', ht, rfl⟩ := h
    rcases List.mem_cons.mp hb with rfl | hmem
    · exact ⟨a, by simp, hb'⟩
    · obtain ⟨a', ha', hfa'⟩ := ih t' ht b hmem
      exact ⟨a', by simp [ha'], hfa'⟩

theorem fillCells_all_some (pts : List (ℚ × ℚ)) :
    ∀ (k : ℕ) (col : List (Option ℚ)), ∀ cell ∈ fillCells pts k col,
      ∃ v, cell = some v := by
  intro k col
  induction col generalizing k with
  | nil => intro cell hc; simp [fillCells] at hc
  | cons c rest ih =>
    intro cell hc
    cases c with
    | none =>
      rcases List.mem_cons.mp hc with rfl | hmem
      · exact ⟨_, rfl⟩
      · exact ih (k + 1) cell hmem
    | some v =>
      rcases List.mem_cons.mp hc with rfl | hmem
      · exact ⟨v, rfl⟩
      · exact ih (k + 1) cell hmem

theorem fillCells_id_of_all_some (pts : List (ℚ × ℚ)) :
    ∀ (k : ℕ) (col : List (Option ℚ)),
      (∀ cell ∈ col, ∃ v, cell = some v) → fillCells pts k col = col := by
  intro k col
  induction col generalizing k with
  | nil => intro _; rfl
  | cons c rest ih =>
    intro h
    cases c with
    | none =>
      obtain ⟨v, hv⟩ := h none (by simp)
      exact absurd hv (by simp)
    | some v =>
      simp only [fillCells]
      rw [ih (k + 1) fun cell hc => h cell (by simp [hc])]

theorem definedPts_ne_nil_of_all_some :
    ∀ (k : ℕ) (col : List (Option ℚ)), col ≠ [] →
      (∀ cell ∈ col, ∃ v, cell = some v) → definedPts k col ≠ [] := by
  intro k col hne h
  cases col with
  | nil => exact absurd rfl hne
  | cons c rest =>
    obtain ⟨v, hv⟩ := h c (by simp)
    subst hv
    simp [definedPts]

theorem definedPts_nil_of_nil (k : ℕ) : definedPts k ([] : List (Option ℚ)) = [] :=
  rfl

theorem fillColumn_of_filled (col out : List (Option ℚ))
    (h : fillColumn col = some out) : fillColumn out = some out := by
  obtain ⟨hne, hout⟩ := fillColumn_eq col out h
  have hcolne : col ≠ [] := by
    intro hnil; subst hnil; exact hne (definedPts_nil_of_nil 0)
  have hall : ∀ cell ∈ out, ∃ v, cell = some v := by
    subst hout; exact fillCells_all_some _ 0 col
  have houtne : out ≠ [] := by
    intro hnil
    have := fillColumn_length col out h
    rw [hnil] at this
    cases col with
    | nil => exact hcolne rfl
    | cons c rest => simp at this
  unfold fillColumn
  rw [if_neg (definedPts_ne_nil_of_all_some 0 out houtne hall)]
  rw [fillCells_id_of_all_some _ 0 out hall]

/-- C8: the Gap Filler is idempotent — whenever a first application
succeeds (every column holds at least one defined value), its output has
no undefined cell left, and applying the Gap Filler to that output
returns it unchanged. -/
theorem forward_fill_2d_idempotent (g g' : List (List (Option ℚ)))
    (h : forward_fill_2d g = some g') :
    (∀ col ∈ g', ∀ cell ∈ col, ∃ v, cell = some v) ∧
    forward_fill_2d g' = some g' := by
  constructor
  · intro col hcol cell hcell
    obtain ⟨col0, -, hfc⟩ := traverseOpt_mem _ _ _ h col hcol
    obtain ⟨-, hout⟩ := fillColumn_eq col0 col hfc
    subst hout
    exact fillCells_all_some _ 0 col0 cell hcell
  · refine traverseOpt_id _ _ ?_
    intro col hcol
    obtain ⟨col0, -, hfc⟩ := traverseOpt_mem _ _ _ h col hcol
    exact fillColumn_of_filled col0 col hfc

/-- Witness for `forward_fill_2d_idempotent` on a concrete grid. -/
theorem forward_fill_2d_idempotent_witness :
    forward_fill_2d [[some 1, none, some 3]] = some [[some 1, some 2, some 3]] ∧
    forward_fill_2d [[some 1, some 2, some 3]] = some [[some 1, some 2, some 3]] := by
  have h : forward_fill_2d [[some 1, none, some 3]] =
      some [[some 1, some 2, some 3]] := by
    norm_num [forward_fill_2d, traverseOpt, fillColumn, definedPts, fillCells,
      interpPts, List.cons_ne_nil]
  exact ⟨h, (forward_fill_2d_idempotent _ _ h).2⟩

/-! ## Facts about `argminIdx` (np.argmin) -/

theorem argminIdx_lt_length : ∀ (l : List ℚ), l ≠ [] → argminIdx l < l.length := by
  intro l
  induction l with
  | nil => intro h; exact absurd rfl h
  | cons a t ih =>
    intro _
    cases t with
    | nil => simp [argminIdx]
    | cons b t' =>
      by_cases h : a ≤ (b :: t').getD (argminIdx (b :: t')) 0
      · simp only [argminIdx, if_pos h]
        simp
      · have hlt := ih (by simp)
        simp only [argminIdx, if_neg h, List.length_cons]
        simp only [List.length_cons] at hlt
        omega

theorem argminIdx_le : ∀ (l : List ℚ) (k : ℕ), k < l.length →
    l.getD (argminIdx l) 0 ≤ l.getD k 0 := by
  intro l
  induction l with
  | nil => intro k hk; simp at hk
  | cons a t ih =>
    intro k hk
    cases t with
    | nil =>
      have hk0 : k = 0 := by
        simp only [List.length_cons, List.length_nil] at hk
        omega
      subst hk0
      simp [argminIdx]
    | cons b t' =>
      by_cases h : a ≤ (b :: t').getD (argminIdx (b :: t')) 0
      · cases k with
        | zero =>
          simp only [argminIdx, if_pos h, List.getD_cons_zero]
          exact le_refl a
        | succ k' =>
          have hk' : k' < (b :: t').length := by
            simp only [List.length_cons] at hk ⊢; omega
          have hle := ih k' hk'
          simp only [argminIdx, if_pos h, List.getD_cons_zero, List.getD_cons_succ]
          exact le_trans h hle
      · cases k with
        | zero =>
          simp only [argminIdx, if_neg h, List.getD_cons_zero, List.getD_cons_succ]
          exact le_of_lt (lt_of_not_le h)
        | succ k' =>
          have hk' : k' < (b :: t').length := by
            simp only [List.length_cons] at hk ⊢; omega
          have hle := ih k' hk'
          simpa only [argminIdx, if_neg h, List.getD_cons_succ] using hle

theorem argminIdx_first : ∀ (l : List ℚ) (k : ℕ), k < argminIdx l →
    l.getD (argminIdx l) 0 < l.getD k 0 := by
  intro l
  induction l with
  | nil => intro k hk; simp [argminIdx] at hk
  | cons a t ih =>
    intro k hk
    cases t with
    | nil => simp [argminIdx] at hk
    | cons b t' =>
      by_cases h : a ≤ (b :: t').getD (argminIdx (b :: t')) 0
      · simp only [argminIdx, if_pos h] at hk
        simp at hk
      · cases k with
        | zero =>
          simp only [argminIdx, if_neg h, List.getD_cons_zero, List.getD_cons_succ]
          exact lt_of_not_le h
        | succ k' =>
          have hk' : k' < argminIdx (b :: t') := by
            simp only [argminIdx, if_neg h] at hk; omega
          have hlt := ih k' hk'
          simpa only [argminIdx, if_neg h, List.getD_cons_succ] using hlt

theorem map_abs_getD : ∀ (arr : List ℚ) (t : ℚ) (k : ℕ), k < arr.length →
    (arr.map fun v => |v - t|).getD k 0 = |arr.getD k 0 - t| := by
  intro arr t
  induction arr with
  | nil => intro k hk; simp at hk
  | cons a rest ih =>
    intro k hk
    cases k with
    | zero => simp
    | succ k' => simpa using ih k' (by simpa using hk)

theorem fni_spec (lat_arr lon_arr : List ℚ) (tlat tlon : ℚ) (li lo : ℕ)
    (h : find_nearest_indices lat_arr lon_arr tlat tlon = some (li, lo)) :
    li < lat_arr.length ∧ lo < lon_arr.length ∧
    (∀ k, k < lat_arr.length →
      |lat_arr.getD li 0 - tlat| ≤ |lat_arr.getD k 0 - tlat|) ∧
    (∀ k, k < li → |lat_arr.getD li 0 - tlat| < |lat_arr.getD k 0 - tlat|) ∧
    (∀ k, k < lon_arr.length →
      |lon_arr.getD lo 0 - tlon| ≤ |lon_arr.getD k 0 - tlon|) ∧
    (∀ k, k < lo → |lon_arr.getD lo 0 - tlon| < |lon_arr.getD k 0 - tlon|) := by
  unfold find_nearest_indices at h
  by_cases hc : lat_arr = [] ∨ lon_arr = []
  · rw [if_pos hc] at h; exact absurd h (by simp)
  · rw [if_neg hc] at h
    push_neg at hc
    obtain ⟨h1, h2⟩ := hc
    obtain ⟨hli, hlo⟩ := Prod.mk.injEq .. ▸ Option.some.inj h
    subst hli
    subst hlo
    have hmne : lat_arr.map (fun v => |v - tlat|) ≠ [] := by simpa using h1
    have hmne' : lon_arr.map (fun v => |v - tlon|) ≠ [] := by simpa using h2
    have hlen : argminIdx (lat_arr.map fun v => |v - tlat|) < lat_arr.length := by
      simpa using argminIdx_lt_length _ hmne
    have hlen' : argminIdx (lon_arr.map fun v => |v - tlon|) < lon_arr.length := by
      simpa using argminIdx_lt_length _ hmne'
    refine ⟨hlen, hlen', ?_, ?_, ?_, ?_⟩
    · intro k hk
      have hle := argminIdx_le (lat_arr.map fun v => |v - tlat|) k (by simpa using hk)
      rwa [map_abs_getD lat_arr tlat _ hlen, map_abs_getD lat_arr tlat k hk] at hle
    · intro k hk
      have hk' : k < lat_arr.length := lt_trans hk hlen
      have hlt := argminIdx_first (lat_arr.map fun v => |v - tlat|) k hk
      rwa [map_abs_getD lat_arr tlat _ hlen, map_abs_getD lat_arr tlat k hk'] at hlt
    · intro k hk
      have hle := argminIdx_le (lon_arr.map fun v => |v - tlon|) k (by simpa using hk)
      rwa [map_abs_getD lon_arr tlon _ hlen', map_abs_getD lon_arr tlon k hk] at hle
    · intro k hk
      have hk' : k < lon_arr.length := lt_trans hk hlen'
      have hlt := argminIdx_first (lon_arr.map fun v => |v - tlon|) k hk
      rwa [map_abs_getD lon_arr tlon _ hlen', map_abs_getD lon_arr tlon k hk'] at hlt

/-! ## C9 — the Nearest-Point Locator picks the first nearest index -/

/-- C9: on non-empty reference arrays, `find_nearest_indices` returns on
each axis the lowest index minimizing the absolute difference to the
target (every index is no better, every earlier index is strictly
worse); in particular when the exact target value occurs in a reference
array the returned index carries exactly that value (zero error). -/
theorem find_nearest_indices_correct (lat_arr lon_arr : List ℚ)
    (tlat tlon : ℚ) (h1 : lat_arr ≠ []) (h2 : lon_arr ≠ []) :
    ∃ li lo, find_nearest_indices lat_arr lon_arr tlat tlon = some (li, lo) ∧
      li < lat_arr.length ∧ lo < lon_arr.length ∧
      (∀ k, k < lat_arr.length →
        |lat_arr.getD li 0 - tlat| ≤ |lat_arr.getD k 0 - tlat|) ∧
      (∀ k, k < li → |lat_arr.getD li 0 - tlat| < |lat_arr.getD k 0 - tlat|) ∧
      (∀ k, k < lon_arr.length →
        |lon_arr.getD lo 0 - tlon| ≤ |lon_arr.getD k 0 - tlon|) ∧
      (∀ k, k < lo → |lon_arr.getD lo 0 - tlon| < |lon_arr.getD k 0 - tlon|) ∧
      (tlat ∈ lat_arr → lat_arr.getD li 0 = tlat) ∧
      (tlon ∈ lon_arr → lon_arr.getD lo 0 = tlon) := by
  have hsome : find_nearest_indices lat_arr lon_arr tlat tlon =
      some (argminIdx (lat_arr.map fun v => |v - tlat|),
            argminIdx (lon_arr.map fun v => |v - tlon|)) := by
    unfold find_nearest_indices
    rw [if_neg (not_or.mpr ⟨h1, h2⟩)]
  obtain ⟨hlen, hlen', hmin, hfirst, hmin', hfirst'⟩ :=
    fni_spec lat_arr lon_arr tlat tlon _ _ hsome
  refine ⟨_, _, hsome, hlen, hlen', hmin, hfirst, hmin', hfirst', ?_, ?_⟩
  · intro hmem
    obtain ⟨m, hm, hv⟩ := List.mem_iff_getElem.mp hmem
    have hz : |lat_arr.getD m 0 - tlat| = 0 := by
      rw [List.getD_eq_getElem _ _ hm, hv]
      simp
    have hle := hmin m hm
    rw [hz] at hle
    have := abs_nonneg (lat_arr.getD (argminIdx (lat_arr.map fun v => |v - tlat|)) 0 - tlat)
    have h0 : |lat_arr.getD (argminIdx (lat_arr.map fun v => |v - tlat|)) 0 - tlat| = 0 := le_antisymm hle this
    have := abs_eq_zero.mp h0
    linarith
  · intro hmem
    obtain ⟨m, hm, hv⟩ := List.mem_iff_getElem.mp hmem
    have hz : |lon_arr.getD m 0 - tlon| = 0 := by
      rw [List.getD_eq_getElem _ _ hm, hv]
      simp
    have hle := hmin' m hm
    rw [hz] at hle
    have := abs_nonneg (lon_arr.getD (argminIdx (lon_arr.map fun v => |v - tlon|)) 0 - tlon)
    have h0 : |lon_arr.getD (argminIdx (lon_arr.map fun v => |v - tlon|)) 0 - tlon| = 0 := le_antisymm hle this
    have := abs_eq_zero.mp h0
    linarith

/-- Witness for `find_nearest_indices_correct`: the target (2, 5) occurs
in the reference arrays; the locator returns index (1, 1) — for the
longitude axis the first of the two tied exact matches — with zero
error. -/
theorem find_nearest_indices_correct_witness :
    find_nearest_indices [4, 2, 9] [7, 5, 5] 2 5 = some (1, 1) ∧
    ([4, 2, 9] : List ℚ).getD 1 0 = 2 ∧ ([7, 5, 5] : List ℚ).getD 1 0 = 5 := by
  have hval : find_nearest_indices [4, 2, 9] [7, 5, 5] 2 5 = some (1, 1) := by
    rw [find_nearest_indices, if_neg (by simp)]
    norm_num [argminIdx, abs]
  obtain ⟨li, lo, hsome, -, -, -, -, -, -, hex1, hex2⟩ :=
    find_nearest_indices_correct [4, 2, 9] [7, 5, 5] 2 5 (by simp) (by simp)
  rw [hval] at hsome
  obtain ⟨hli, hlo⟩ := Prod.mk.injEq .. ▸ Option.some.inj hsome
  subst hli
  subst hlo
  exact ⟨hval, hex1 (by norm_num), hex2 (by norm_num)⟩

/-! ## C6 — the two-pass refinement is not monotone in 2D -/

/-- C6 counterexample: on the gap-free 2×2 grids below with target
(0, 0), the first pass lands on cell (1,1) (per-axis errors 3 and 3) and
the second pass moves to cell (0,0) (per-axis errors 9 and 9): both the
latitude and the longitude error strictly increase, so the distance to
the target grows under any monotone combination of the per-axis
errors. -/
theorem two_pass_not_monotone :
    two_pass [[9, 1], [2, 3]] [[9, 2], [1, 3]] 0 0 = some ((1, 1), (0, 0)) ∧
    |(rowSlice [[9, 1], [2, 3]] 0).getD 0 0 - 0| >
      |(rowSlice [[9, 1], [2, 3]] 1).getD 1 0 - 0| ∧
    |(rowSlice [[9, 2], [1, 3]] 0).getD 0 0 - 0| >
      |(rowSlice [[9, 2], [1, 3]] 1).getD 1 0 - 0| := by
  refine ⟨?_, ?_, ?_⟩
  · norm_num [two_pass, find_nearest_indices, argminIdx, colSlice, rowSlice, abs,
      List.cons_ne_nil, List.getElem_cons_succ, List.getElem_cons_zero]
    decide
  · norm_num [rowSlice]
  · norm_num [rowSlice]

theorem colSlice_length (g : List (List ℚ)) (c : ℕ) :
    (colSlice g c).length = g.length := by
  simp [colSlice]

/-- C6 (amended): the second refinement pass is optimal along the slices
through the first-pass index — on each axis it returns the index
minimizing the absolute difference over the row/column through the first
guess, so in particular it is no worse than the first-pass index
evaluated on those same slices.  (The distance measured at the combined
second-pass 2D cell can nevertheless exceed the first-pass cell's
distance, as `two_pass_not_monotone` shows.) -/
theorem two_pass_slice_optimal (lat lon : List (List ℚ)) (tlat tlon : ℚ)
    (li1 lo1 li2 lo2 : ℕ)
    (h : two_pass lat lon tlat tlon = some ((li1, lo1), (li2, lo2))) :
    li2 < lat.length ∧
    (∀ k, k < lat.length →
      |(colSlice lat lo1).getD li2 0 - tlat| ≤
        |(colSlice lat lo1).getD k 0 - tlat|) ∧
    |(colSlice lat lo1).getD li2 0 - tlat| ≤
      |(colSlice lat lo1).getD li1 0 - tlat| ∧
    (∀ k, k < (rowSlice lon li1).length →
      |(rowSlice lon li1).getD lo2 0 - tlon| ≤
        |(rowSlice lon li1).getD k 0 - tlon|) ∧
    (lo1 < (rowSlice lon li1).length →
      |(rowSlice lon li1).getD lo2 0 - tlon| ≤
        |(rowSlice lon li1).getD lo1 0 - tlon|) := by
  unfold two_pass at h
  obtain ⟨p1, hp1, hmap⟩ := Option.bind_eq_some.mp h
  obtain ⟨p2, hp2, heq⟩ := Option.map_eq_some'.mp hmap
  rw [Prod.ext_iff] at heq
  obtain ⟨hpa, hpb⟩ := heq
  subst hpa
  subst hpb
  dsimp only at hp2
  obtain ⟨hl1, -, -, -, -, -⟩ := fni_spec _ _ _ _ _ _ hp1
  obtain ⟨hl2, hl2', hmin2, -, hmin2', -⟩ := fni_spec _ _ _ _ _ _ hp2
  rw [colSlice_length] at hl1 hl2
  refine ⟨hl2, ?_, ?_, hmin2', ?_⟩
  · intro k hk
    exact hmin2 k (by rwa [colSlice_length])
  · exact hmin2 li1 (by rwa [colSlice_length])
  · intro hb
    exact hmin2' lo1 hb

/-- Witness for `two_pass_slice_optimal` on the grids of
`two_pass_not_monotone`: along the second-pass column slice the returned
row index 0 (error 1) is no worse than the first-pass row index 1
(error 3). -/
theorem two_pass_slice_optimal_witness :
    two_pass [[9, 1], [2, 3]] [[9, 2], [1, 3]] 0 0 = some ((1, 1), (0, 0)) ∧
    |(colSlice [[9, 1], [2, 3]] 1).getD 0 0 - 0| ≤
      |(colSlice [[9, 1], [2, 3]] 1).getD 1 0 - 0| := by
  have h : two_pass [[9, 1], [2, 3]] [[9, 2], [1, 3]] 0 0 =
      some ((1, 1), (0, 0)) := by
    norm_num [two_pass, find_nearest_indices, argminIdx, colSlice, rowSlice, abs,
      List.cons_ne_nil, List.getElem_cons_succ, List.getElem_cons_zero]
    decide
  exact ⟨h, (two_pass_slice_optimal _ _ _ _ _ _ _ _ h).2.2.1⟩

/-! ## C10 — the Time-Series Extractor is a pure gather -/

theorem frameAt_inbounds (fr : List (List (Option ℚ))) (r c : ℕ) (jj ii : ℤ)
    (hr : fr.length = r) (hc : ∀ row ∈ fr, row.length = c)
    (hj : 0 ≤ jj ∧ jj < (r : ℤ)) (hi : 0 ≤ ii ∧ ii < (c : ℤ)) :
    ∃ cell, frameAt fr jj ii = some cell ∧
      (fr[jj.toNat]?).bind (fun row => row[ii.toNat]?) = some cell := by
  subst hr
  unfold frameAt pythonIndex
  rw [if_pos hj]
  have hjn : jj.toNat < fr.length := by omega
  simp only [Option.some_bind]
  rw [List.getElem?_eq_getElem hjn]
  simp only [Option.some_bind]
  have hrow := hc fr[jj.toNat] (List.getElem_mem hjn)
  have hcond : 0 ≤ ii ∧ ii < (fr[jj.toNat].length : ℤ) := by rw [hrow]; exact hi
  rw [if_pos hcond]
  have hiN : ii.toNat < fr[jj.toNat].length := by
    rw [hrow]; omega
  simp only [Option.some_bind]
  rw [List.getElem?_eq_getElem hiN]
  exact ⟨fr[jj.toNat][ii.toNat], rfl, rfl⟩

/-- C10: for a rectangular time-extended Data Field with `T` timestamps
and any 8 in-bounds grid-index offsets, the extraction loop yields
exactly 8 time series, each of length `T`, and series `k` at timestamp
`t` is exactly the Data Field cell at offset `k` and timestamp `t` —
direct indexing, no reordering, no interpolation, with missing (`none`)
source samples propagated unchanged. -/
theorem extract_points_gather (field : List (List (List (Option ℚ))))
    (pts : List PointEntry) (T r c : ℕ)
    (hT : field.length = T)
    (hrect : ∀ fr ∈ field, fr.length = r ∧ ∀ row ∈ fr, row.length = c)
    (h8 : pts.length = 8)
    (hin : ∀ p ∈ pts, 0 ≤ p.j ∧ p.j < (r : ℤ) ∧ 0 ≤ p.i ∧ p.i < (c : ℤ)) :
    ∃ out, extract_points field pts = some out ∧ out.length = 8 ∧
      (∀ s ∈ out, s.length = T) ∧
      (∀ (k t : ℕ) (p : PointEntry) (fr : List (List (Option ℚ))),
        pts[k]? = some p → field[t]? = some fr →
        ∃ s, out[k]? = some s ∧
          s[t]? = (fr[p.j.toNat]?).bind fun row => row[p.i.toNat]?) := by
  have hpoint : ∀ p ∈ pts, (extract_point field p.j p.i).isSome := by
    intro p hp
    refine traverseOpt_isSome _ _ ?_
    intro fr hfr
    obtain ⟨hr, hc⟩ := hrect fr hfr
    obtain ⟨hj, hj', hi, hi'⟩ := hin p hp
    obtain ⟨cell, hcell, -⟩ :=
      frameAt_inbounds fr r c p.j p.i hr hc ⟨hj, hj'⟩ ⟨hi, hi'⟩
    simp [hcell]
  have hsome := traverseOpt_isSome (fun p => extract_point field p.j p.i) pts hpoint
  obtain ⟨out, hout⟩ := Option.isSome_iff_exists.mp hsome
  refine ⟨out, hout, ?_, ?_, ?_⟩
  · rw [traverseOpt_length _ _ _ hout, h8]
  · intro s hs
    obtain ⟨p, -, hps⟩ := traverseOpt_mem _ _ _ hout s hs
    rw [traverseOpt_length _ _ _ hps, hT]
  · intro k t p fr hk ht
    obtain ⟨s, hps, hsk⟩ := traverseOpt_get _ _ _ hout k p hk
    refine ⟨s, hsk, ?_⟩
    obtain ⟨cell, hcell, hst⟩ := traverseOpt_get _ _ _ hps t fr ht
    obtain ⟨hr, hc⟩ := hrect fr (List.getElem?_mem ht)
    obtain ⟨hj, hj', hi, hi'⟩ := hin p (List.getElem?_mem hk)
    obtain ⟨cell', hcell', hdirect⟩ :=
      frameAt_inbounds fr r c p.j p.i hr hc ⟨hj, hj'⟩ ⟨hi, hi'⟩
    rw [hcell] at hcell'
    rw [hst, hdirect, Option.some.inj hcell']

/-- Witness for `extract_points_gather`: a 2-timestamp 3×3 field, the 8
neighbor offsets of center (1,1); series 1 (the "East" point, which sits
on a missing sample at timestamp 0) is the direct gather
`[none, some 112]` — the missing value propagates. -/
theorem extract_points_gather_witness :
    extract_points
      [[[some 0, some 1, some 2], [some 10, some 11, none],
        [some 20, some 21, some 22]],
       [[some 100, some 101, some 102], [some 110, some 111, some 112],
        [some 120, some 121, some 122]]]
      (calculate_points 1 1 1) =
      some [[some 22, some 122], [none, some 112], [some 2, some 102],
            [some 21, some 121], [some 1, some 101], [some 20, some 120],
            [some 10, some 110], [some 0, some 100]] ∧
    ([[some 22, some 122], [none, some 112], [some 2, some 102],
      [some 21, some 121], [some 1, some 101], [some 20, some 120],
      [some 10, some 110], [some 0, some 100]] :
        List (List (Option ℚ))).length = 8 ∧
    ([[some 22, some 122], [none, some 112], [some 2, some 102],
      [some 21, some 121], [some 1, some 101], [some 20, some 120],
      [some 10, some 110], [some 0, some 100]] :
        List (List (Option ℚ)))[1]? = some [none, some 112] := by
  have heval : extract_points
      [[[some 0, some 1, some 2], [some 10, some 11, none],
        [some 20, some 21, some 22]],
       [[some 100, some 101, some 102], [some 110, some 111, some 112],
        [some 120, some 121, some 122]]]
      (calculate_points 1 1 1) =
      some [[some 22, some 122], [none, some 112], [some 2, some 102],
            [some 21, some 121], [some 1, some 101], [some 20, some 120],
            [some 10, some 110], [some 0, some 100]] := by decide
  obtain ⟨out, hsome, hlen, -, -⟩ := extract_points_gather
    [[[some 0, some 1, some 2], [some 10, some 11, none],
      [some 20, some 21, some 22]],
     [[some 100, some 101, some 102], [some 110, some 111, some 112],
      [some 120, some 121, some 122]]]
    (calculate_points 1 1 1) 2 3 3 rfl (by decide) (by decide) (by decide)
  rw [heval] at hsome
  have houteq := Option.some.inj hsome
  refine ⟨heval, ?_, by decide⟩
  rw [houteq]
  exact hlen

/-! ## C5 — negative discriminant yields NaN, all other cells computed -/

theorem cellAt2_map_map {α : Type} (f : ℝ → ℝ → α) (xs ys : List ℝ)
    (i j : ℕ) (x y : ℝ) (hx : xs[j]? = some x) (hy : ys[i]? = some y) :
    cellAt2 (ys.map fun y0 => xs.map fun x0 => f x0 y0) i j = some (f x y) := by
  unfold cellAt2
  rw [List.getElem?_map, hy]
  simp only [Option.map_some', Option.some_bind]
  rw [List.getElem?_map, hx]
  simp

theorem latCell_of_neg (p : ProjectionInfo) (x y : ℝ)
    (hneg : discriminant p x y < 0) : latCell p x y = none := by
  unfold latCell r_s_opt
  rw [if_pos hneg]
  rfl

theorem lonCell_of_neg (p : ProjectionInfo) (x y : ℝ)
    (hneg : discriminant p x y < 0) : lonCell p x y = none := by
  unfold lonCell r_s_opt
  rw [if_pos hneg]
  rfl

/-- C5: when the quadratic discriminant at a scan-angle pair is negative
(the ray misses the Earth ellipsoid), `calculate_degrees` yields the
undefined value for that cell of both output grids, while the
computation as a whole still produces full-shape latitude/longitude
grids in which every cell — in particular every other cell — carries its
own pointwise value (no exception, no abort). -/
theorem calculate_degrees_nan_isolated (p : ProjectionInfo) (xs ys : List ℝ)
    (i j : ℕ) (x y : ℝ) (hx : xs[j]? = some x) (hy : ys[i]? = some y)
    (hneg : discriminant p x y < 0) :
    cellAt2 (calculate_degrees p xs ys).1 i j = some none ∧
    cellAt2 (calculate_degrees p xs ys).2 i j = some none ∧
    (calculate_degrees p xs ys).1.length = ys.length ∧
    (calculate_degrees p xs ys).2.length = ys.length ∧
    (∀ row ∈ (calculate_degrees p xs ys).1, row.length = xs.length) ∧
    (∀ row ∈ (calculate_degrees p xs ys).2, row.length = xs.length) ∧
    (∀ (i' j' : ℕ) (x' y' : ℝ), xs[j']? = some x' → ys[i']? = some y' →
      cellAt2 (calculate_degrees p xs ys).1 i' j' = some (latCell p x' y') ∧
      cellAt2 (calculate_degrees p xs ys).2 i' j' = some (lonCell p x' y')) := by
  refine ⟨?_, ?_, ?_, ?_, ?_, ?_, ?_⟩
  · rw [show (calculate_degrees p xs ys).1 =
        ys.map fun y0 => xs.map fun x0 => latCell p x0 y0 from rfl,
      cellAt2_map_map _ _ _ _ _ _ _ hx hy, latCell_of_neg p x y hneg]
  · rw [show (calculate_degrees p xs ys).2 =
        ys.map fun y0 => xs.map fun x0 => lonCell p x0 y0 from rfl,
      cellAt2_map_map _ _ _ _ _ _ _ hx hy, lonCell_of_neg p x y hneg]
  · simp [calculate_degrees]
  · simp [calculate_degrees]
  · intro row hrow
    simp only [calculate_degrees, List.mem_map] at hrow
    obtain ⟨y0, -, rfl⟩ := hrow
    simp
  · intro row hrow
    simp only [calculate_degrees, List.mem_map] at hrow
    obtain ⟨y0, -, rfl⟩ := hrow
    simp
  · intro i' j' x' y' hx' hy'
    constructor
    · exact cellAt2_map_map (fun x0 y0 => latCell p x0 y0) xs ys i' j' x' y' hx' hy'
    · exact cellAt2_map_map (fun x0 y0 => lonCell p x0 y0) xs ys i' j' x' y' hx' hy'

/-- Witness for `calculate_degrees_nan_isolated`: with H = 2, unit radii
and the scan grid x = (π/2, 0), y = (0), the discriminant at x = π/2 is
-12 < 0, that cell of both grids is NaN, and the neighboring cell
(x = 0) is still computed pointwise. -/
theorem calculate_degrees_nan_isolated_witness :
    cellAt2 (calculate_degrees ⟨0, 1, 1, 1⟩ [Real.pi / 2, 0] [0]).1 0 0 =
      some none ∧
    cellAt2 (calculate_degrees ⟨0, 1, 1, 1⟩ [Real.pi / 2, 0] [0]).2 0 0 =
      some none ∧
    cellAt2 (calculate_degrees ⟨0, 1, 1, 1⟩ [Real.pi / 2, 0] [0]).1 0 1 =
      some (latCell ⟨0, 1, 1, 1⟩ 0 0) := by
  have hneg : discriminant ⟨0, 1, 1, 1⟩ (Real.pi / 2) 0 < 0 := by
    simp only [discriminant, a_var, b_var, c_var, Hparam, Real.cos_pi_div_two,
      Real.sin_pi_div_two, Real.sin_zero, Real.cos_zero]
    norm_num
  have h := calculate_degrees_nan_isolated ⟨0, 1, 1, 1⟩ [Real.pi / 2, 0] [0]
    0 0 (Real.pi / 2) 0 rfl rfl hneg
  exact ⟨h.1, h.2.1, (h.2.2.2.2.2.2 0 1 0 0 rfl rfl).1⟩
